import Mathlib

/-!
Verification of the hierarchical task organization engine of the asana-scrum
repository: the structured-name parser (`NameParser.py`), the hierarchy
reconciliation command (`commandlets.py`, class `BuildHierarchy`), the
bottom-up rollup fold (`AsanaTask.py`, method `reduce`) with the estimate
callbacks (`commandlets.py`, class `UpdateEstimatesForTask`), and the
conditional write-through task mutations (`AsanaTask.py`).

Titles are modelled as lists of characters (`Str`).  Operations that can raise
in Python (the name regex failing to match, a missing parent chain) return
`Option`.  The possibly non-terminating reconciliation recursion takes a fuel
parameter.
-/

namespace AsanaScrum

/-- A task title, modelled as the list of its characters. -/
abbrev Str := List Char

/-- The whitespace test used by Python's `str.strip()`. -/
def pySpace (c : Char) : Bool :=
  c = ' ' || c = '\t' || c = '\n' || c = '\r' || c = '\x0b' || c = '\x0c'

/-- Python `s.strip()`: drop whitespace from both ends. -/
def strip (s : Str) : Str :=
  ((s.dropWhile pySpace).reverse.dropWhile pySpace).reverse

/-- One left-to-right pass of `NameParser.__clean_regex.sub("", raw)`, the
substitution that deletes every occurrence of the pattern `\[[^]]*\]*`
(a literal `[`, a run of non-`]` characters, then a run of `]` characters).
State 0 scans ordinary text, state 1 is inside a bracket group before any `]`,
state 2 is consuming the trailing run of `]`. -/
def cleanGo : Nat → Str → Str
  | _, [] => []
  | 0, c :: r => if c = '[' then cleanGo 1 r else c :: cleanGo 0 r
  | 1, c :: r => if c = ']' then cleanGo 2 r else cleanGo 1 r
  | 2, c :: r =>
      if c = ']' then cleanGo 2 r
      else if c = '[' then cleanGo 1 r else c :: cleanGo 0 r
  | _ + 3, _ => []

/-- `NameParser.__clean_regex.sub("", raw)`: remove every bracketed tag. -/
def clean (s : Str) : Str := cleanGo 0 s

/-- `NameParser.untagged`: the title with bracketed tags removed and
surrounding whitespace stripped. -/
def untagged (raw : Str) : Str := strip (clean raw)

/-- Python `s.split(">")`: split on every occurrence of `'>'`; the result is
always non-empty and keeps empty pieces. -/
def splitGt : Str → List Str
  | [] => [[]]
  | c :: rest =>
      if c = '>' then [] :: splitGt rest
      else
        match splitGt rest with
        | [] => [[c]]
        | h :: t => (c :: h) :: t

/-- `NameParser.parts`: the untagged title split on `'>'`, each part
stripped of whitespace. -/
def parts (raw : Str) : List Str := (splitGt (untagged raw)).map strip

/-- `NameParser.first`: the first part (the list returned by `parts` is never
empty, mirroring Python `parts[0]`). -/
def firstPart (raw : Str) : Str := (parts raw).headI

/-- `NameParser.remainder`: the parts after the first, re-joined with `" > "`. -/
def remainder (raw : Str) : Str :=
  List.intercalate (" > ".toList) (parts raw).tail

/-- The match of `NameParser.__name_regex`, i.e. of
`(?P<name>[^(]+)([(](?P<abbr>[^)]+))?`, against a string: `none` when the
regex does not match (the string is empty or begins with `'('`, so the
mandatory group `[^(]+` fails), otherwise the raw text of the `name` group
and, when present, of the `abbr` group (both un-stripped). -/
def nmMatch (s : Str) : Option (Str × Option Str) :=
  if s.takeWhile (fun c => c ≠ '(') = [] then none
  else
    match s.dropWhile (fun c => c ≠ '(') with
    | [] => some (s.takeWhile (fun c => c ≠ '('), none)
    | _ :: rest =>
        if rest.takeWhile (fun c => c ≠ ')') = [] then
          some (s.takeWhile (fun c => c ≠ '('), none)
        else
          some (s.takeWhile (fun c => c ≠ '('),
            some (rest.takeWhile (fun c => c ≠ ')')))

/-- `NameParser.name`: the stripped `name` group of the regex matched against
the first part; `none` when the regex raises (`AttributeError` in Python). -/
def recName (raw : Str) : Option Str :=
  (nmMatch (firstPart raw)).map (fun p => strip p.1)

/-- `NameParser.abbreviation`: the stripped `abbr` group (inner `none` when
the group is absent); outer `none` when the regex raises. -/
def recAbbr (raw : Str) : Option (Option Str) :=
  (nmMatch (firstPart raw)).map (fun p => p.2.map strip)

/-- `self.abbreviation or self.name` on match groups: the stripped
abbreviation unless it is absent or strips to the empty (falsy) string, in
which case the stripped name. -/
def pyMnem (n : Str) (ab : Option Str) : Str :=
  match ab with
  | some a => if strip a = [] then strip n else strip a
  | none => strip n

/-- `NameParser.mnemonic`: abbreviation if present (and non-falsy after
stripping) else the name; `none` when the regex raises. -/
def recMnemonic (raw : Str) : Option Str :=
  (nmMatch (firstPart raw)).map (fun p => pyMnem p.1 p.2)

/-- The candidate-side mnemonic computed inside `NameParser.matches`:
`name_abbreviation or name_name` where `name_abbreviation` is the raw,
un-stripped `abbr` group (always a non-empty, hence truthy, string when the
group matched) and `name_name` is the stripped `name` group. -/
def candMnem (n : Str) (ab : Option Str) : Str :=
  match ab with
  | some a => a
  | none => strip n

/-- The candidate's mnemonic as `NameParser.matches` computes it from the
candidate string (`none` when the regex raises on the candidate). -/
def candMnemonic (c : Str) : Option Str :=
  (nmMatch c).map (fun p => candMnem p.1 p.2)

/-- The candidate's plain name as `NameParser.matches` computes it
(`none` when the regex raises on the candidate). -/
def candName (c : Str) : Option Str :=
  (nmMatch c).map (fun p => strip p.1)

/-- `NameParser.matches(name)`: the candidate string is parsed first (a parse
failure raises, modelled as `none`); then the receiver matches iff it has
exactly one part and the candidate's mnemonic equals the receiver's mnemonic
or the candidate's stripped name equals the receiver's stripped name.  When
the receiver has exactly one part, computing `self.mnemonic` parses the
receiver's first part, which can also raise. -/
def matchesOpt (raw c : Str) : Option Bool :=
  (nmMatch c).bind fun cp =>
    if (parts raw).length = 1 then
      (nmMatch (firstPart raw)).map fun rp =>
        candMnem cp.1 cp.2 == pyMnem rp.1 rp.2 || strip cp.1 == strip rp.1
    else some false

/-! ### The task store state and `BuildHierarchy`

The external task store is modelled as ground truth: an association list of
task records, an ordered section task list, and an ordered children list per
parent.  Mutations (`AsanaTask.parent` setter, `AsanaSection.add_task`,
`AsanaTask.add_subtask`) write through immediately; within one command the
Python instance caches agree with this ground truth (single writer, and
`BuildHierarchy` re-fetches the scope before every search).  The store's
choice of insertion position for a reparented or newly created task is
modelled as appending; none of the theorems below depend on that choice. -/

/-- A task record: title, completion flag, optional parent id
(`AsanaTask._task` fields used by `BuildHierarchy`). -/
structure HTask where
  name : Str
  completed : Bool
  parent : Option Nat
  deriving DecidableEq, Repr

/-- The task store: next fresh id, task records, ordered children lists,
ordered section task list. -/
structure HState where
  nextId : Nat
  tasks : List (Nat × HTask)
  children : List (Nat × List Nat)
  sectionTasks : List Nat
  deriving DecidableEq, Repr

/-- Fetch a task record by id. -/
def lookupTask (st : HState) (i : Nat) : Option HTask :=
  st.tasks.lookup i

/-- `AsanaTask.subtasks()`: the ordered direct children of a task. -/
def subtasksOf (st : HState) (i : Nat) : List Nat :=
  (st.children.lookup i).getD []

/-- Append a child id to a parent's ordered children list. -/
def addChild (ch : List (Nat × List Nat)) (p c : Nat) : List (Nat × List Nat) :=
  if (ch.lookup p).isSome then
    ch.map fun q => if q.1 = p then (q.1, q.2 ++ [c]) else q
  else ch ++ [(p, [c])]

/-- `AsanaTask.parent` setter: write the new parent through to the store;
the task leaves its previous parent's children list and is appended to the
new parent's. -/
def setParent (st : HState) (tid pid : Nat) : HState :=
  { st with
    tasks := st.tasks.map fun q =>
      if q.1 = tid then (q.1, { q.2 with parent := some pid }) else q
    children :=
      addChild (st.children.map fun q => (q.1, q.2.filter (fun c => c ≠ tid)))
        pid tid }

/-- `AsanaSection.add_task(name)`: create a fresh incomplete task with no
parent and attach it to the section's task list. -/
def addSectionTask (st : HState) (name : Str) : HState × Nat :=
  ({ st with
      nextId := st.nextId + 1
      tasks := st.tasks ++ [(st.nextId, ⟨name, false, none⟩)]
      sectionTasks := st.sectionTasks ++ [st.nextId] }, st.nextId)

/-- `AsanaTask.add_subtask(name)`: create a fresh incomplete task as the last
child of `p`. -/
def addSubtask (st : HState) (p : Nat) (name : Str) : HState × Nat :=
  ({ st with
      nextId := st.nextId + 1
      tasks := st.tasks ++ [(st.nextId, ⟨name, false, some p⟩)]
      children := addChild st.children p st.nextId }, st.nextId)

/-- `AsanaTask.name` setter (write-through only when the title changed; the
resulting store state is the same either way, so the model stores the new
name unconditionally). -/
def setTaskName (st : HState) (tid : Nat) (name : Str) : HState :=
  { st with
    tasks := st.tasks.map fun q =>
      if q.1 = tid then (q.1, { q.2 with name := name }) else q }

/-- The parent search of `BuildHierarchy._attach_parent` (line 133):
`next((found for found in tasks if (not found.completed) and
NameParser(found.name).matches(name)), None)`.  The candidate test is lazy:
nodes after the first hit are never parsed; a completed node is skipped
without parsing its name.  `none` models a raised exception, `some none`
exhaustion without a hit, `some (some i)` the first hit. -/
def findParent (st : HState) (seg : Str) : List Nat → Option (Option Nat)
  | [] => some none
  | i :: rest =>
      match lookupTask st i with
      | none => none
      | some t =>
          if t.completed then findParent st seg rest
          else
            match matchesOpt t.name seg with
            | none => none
            | some true => some (some i)
            | some false => findParent st seg rest

/-- `BuildHierarchy._attach_parent(task, name, section)`: choose the scope
(section list when the task has no parent, else the current parent's
children), search it, create the missing parent if needed, then reparent the
task under the chosen node. -/
def attachParent (st : HState) (tid : Nat) (seg : Str) : Option HState := do
  let t ← lookupTask st tid
  let scope := match t.parent with
    | none => st.sectionTasks
    | some p => subtasksOf st p
  match ← findParent st seg scope with
  | some pid => pure (setParent st tid pid)
  | none =>
      match t.parent with
      | none =>
          let (st1, pid) := addSectionTask st seg
          pure (setParent st1 tid pid)
      | some p =>
          let (st1, pid) := addSubtask st p seg
          pure (setParent st1 tid pid)

/-- The ancestor walk of `TaskNameParser.tags`: collect each ancestor's
mnemonic, nearest parent first, following `parent` links.  The walk is
bounded by a fuel parameter (a cyclic `parent` chain would loop forever in
Python); a missing record or a mnemonic parse failure raises (`none`). -/
def ancestorMnems (st : HState) : Nat → Option Nat → Option (List Str)
  | _, none => some []
  | 0, some _ => none
  | fuel + 1, some p => do
      let t ← lookupTask st p
      let m ← recMnemonic t.name
      let rest ← ancestorMnems st fuel t.parent
      pure (m :: rest)

/-- `TaskNameParser.tagged_name` as a function of the raw title (captured
when the parser was constructed) and the ancestor mnemonics (nearest parent
first, as `tags` collects them): if the space-joined, root-most-first tag
string is non-empty (truthy), prefix it in brackets to the remainder, falling
back to the untagged title when the remainder is empty (falsy). -/
def taggedNameFrom (raw : Str) (ancMnems : List Str) : Str :=
  let tags := List.intercalate (" ".toList) ancMnems.reverse
  let base := if remainder raw = [] then untagged raw else remainder raw
  if tags = [] then base else '[' :: (tags ++ (']' :: ' ' :: base))

/-- Outcome of one pass of `BuildHierarchy.__build_hierarchy`. -/
inductive PassResult where
  | done
  | next (st : HState)
  | err
  deriving DecidableEq, Repr

/-- One pass of `BuildHierarchy.__build_hierarchy` (lines 114-122): parse the
task's current title; stop when it has exactly one part; otherwise attach a
parent for the first part, then rewrite the title to the tagged-remainder
form computed from the old raw title and the new ancestor chain. -/
def hierarchyPass (tid : Nat) (st : HState) : PassResult :=
  match lookupTask st tid with
  | none => .err
  | some t =>
      if (parts t.name).length = 1 then .done
      else
        match attachParent st tid (firstPart t.name) with
        | none => .err
        | some st1 =>
            match
              (lookupTask st1 tid).bind fun t1 =>
                ancestorMnems st1 (st1.tasks.length + 1) t1.parent
            with
            | none => .err
            | some ms => .next (setTaskName st1 tid (taggedNameFrom t.name ms))

/-- `BuildHierarchy.__build_hierarchy`: iterate passes until the title has a
single part; the recursion depth is bounded by fuel (`none` models both a
raised exception and a recursion that does not finish within the fuel, as the
unbounded Python recursion would overflow). -/
def buildHierarchy : Nat → Nat → HState → Option HState
  | 0, _, _ => none
  | fuel + 1, tid, st =>
      match hierarchyPass tid st with
      | .err => none
      | .done => some st
      | .next st1 => buildHierarchy fuel tid st1

/-- The section of the C2 end-to-end scenario: one task titled
`"Area (AR) > Feature > Do the thing"`, incomplete, with no parent, and no
other nodes. -/
def c2Init : HState :=
  ⟨1, [(0, ⟨"Area (AR) > Feature > Do the thing".toList, false, none⟩)], [], [0]⟩

/-- The C1 failing input: a section whose single task is titled `"A >"`
(a path separator with an empty remainder), incomplete, with no parent. -/
def c1Init : HState := ⟨1, [(0, ⟨"A >".toList, false, none⟩)], [], [0]⟩

/-- The test applied to one scope node inside the `next(...)` search of
`BuildHierarchy._attach_parent` (line 133): a completed node is skipped
without parsing its title (lazy `and`), otherwise its title must match the
segment; `none` models a raised parse error. -/
def scopeHit (st : HState) (seg : Str) (i : Nat) : Option Bool :=
  match lookupTask st i with
  | none => none
  | some t => if t.completed then some false else matchesOpt t.name seg

/-- Modelled from the spec: the step-7 title rewrite as claim C8 words it —
the bracketed concatenation of the ancestors' mnemonics (root-most first)
prefixed to the plain remainder when any ancestor mnemonics exist, and, when
the remainder is empty, a fallback to the task's own *plain name* (the first
segment's text before any parenthesized abbreviation, `NameParser.name`). -/
def specTaggedNameClaim (raw : Str) (ancRootFirst : List Str) : Option Str :=
  (if remainder raw = [] then recName raw else some (remainder raw)).map
    fun base =>
      if ancRootFirst = [] then base
      else '[' :: (List.intercalate (" ".toList) ancRootFirst ++ (']' :: ' ' :: base))

/-- Modelled from the spec with the amended fallback: as above, but when the
remainder is empty the rewritten title falls back to the task's *untagged
title* (the full old title with bracketed tags stripped), which is what
`TaskNameParser.tagged_name` actually uses. -/
def specTaggedNameAmended (raw : Str) (ancRootFirst : List Str) : Str :=
  if ancRootFirst = [] then
    (if remainder raw = [] then untagged raw else remainder raw)
  else
    '[' :: (List.intercalate (" ".toList) ancRootFirst ++
      (']' :: ' ' :: (if remainder raw = [] then untagged raw else remainder raw)))

/-! ### `AsanaTask.reduce`: the reverse-order level-bucket fold

A task's subtask forest is modelled by `Forest`: `tree i cs rest` is the node
with id `i` whose ordered children are the forest `cs`, followed by its right
siblings `rest`.  `AsanaTask.__leveled_subtasks` lists the strict descendants
of the root in preorder, paired with their depth (the root's direct children
at depth 0); `reduce` walks that list reversed, keeping one accumulator
bucket per depth. -/

/-- An ordered forest of task nodes (id, children, right siblings). -/
inductive Forest where
  | nil : Forest
  | tree (i : Nat) (children rest : Forest) : Forest
  deriving DecidableEq, Repr

/-- Whether a forest is empty (a node with `nil` children is a leaf). -/
def Forest.isNil : Forest → Bool
  | .nil => true
  | .tree _ _ _ => false

/-- `AsanaTask.__leveled_subtasks(level)`: the `(level, id)` pairs of all
nodes of the forest in preorder, children one level deeper. -/
def lvlIds (m : Int) : Forest → List (Int × Nat)
  | .nil => []
  | .tree i cs rest => (m, i) :: (lvlIds (m + 1) cs ++ lvlIds m rest)

/-- One observable callback invocation of `reduce`: `init` is the
`initializer`, `comb` the `reducer` (folding the node into its level bucket),
`fin` the `updater` (finalizing the node from the deeper bucket). -/
inductive Ev where
  | init (i : Nat)
  | comb (i : Nat)
  | fin (i : Nat)
  deriving DecidableEq, Repr

/-- The callback sequence of the loop body of `AsanaTask.reduce`
(lines 173-179) over the already-reversed leveled list: each entry is
initialized; if its level is smaller than the previous entry's it is
finalized from the deeper bucket; then it is folded into its own bucket. -/
def loopTr : List (Int × Nat) → Int → List Ev
  | [], _ => []
  | (l, i) :: rest, prev =>
      Ev.init i :: ((if l < prev then [Ev.fin i] else []) ++
        (Ev.comb i :: loopTr rest l))

/-- The full callback sequence of `AsanaTask.reduce` on a root task whose
subtask forest is `cs`: the reversed leveled list is walked with
`prev_level = -1`, then the root itself is initialized and finalized
(lines 180-181). -/
def codeTrace (root : Nat) (cs : Forest) : List Ev :=
  loopTr ((lvlIds 0 cs).reverse) (-1) ++ [Ev.init root, Ev.fin root]

/-- The level of the last processed entry, or `prev` for an empty list. -/
def lastLvl (xs : List (Int × Nat)) (prev : Int) : Int :=
  match xs.getLast? with
  | some p => p.1
  | none => prev

/-- The recursive reference fold that `reduce` actually implements (the
amended form of the spec's post-order reference): siblings are processed in
reverse child-list order; every node is initialized, then finalized only
when it has children, then folded into its parent's accumulator. -/
def revPostBlocks : Forest → List Ev
  | .nil => []
  | .tree i cs rest =>
      revPostBlocks rest ++
        (revPostBlocks cs ++ Ev.init i ::
          ((if cs.isNil then [] else [Ev.fin i]) ++ [Ev.comb i]))

/-- The amended reference trace for a whole root: reverse-order post-order
over the children forest, then the root is initialized and finalized last. -/
def revPostTrace (root : Nat) (cs : Forest) : List Ev :=
  revPostBlocks cs ++ [Ev.init root, Ev.fin root]

/-- Modelled from the spec: the post-order reference fold exactly as claim C4
and section 4.3 word it — children processed left-to-right, every node
(leaves included) initialized and then finalized strictly before its parent
is finalized, each child folded into its parent's accumulator right after
being finalized. -/
def specPostBlocks : Forest → List Ev
  | .nil => []
  | .tree i cs rest =>
      (specPostBlocks cs ++ [Ev.init i, Ev.fin i, Ev.comb i]) ++ specPostBlocks rest

/-- Modelled from the spec: the claimed post-order reference trace for a
root and its children forest. -/
def specPostTrace (root : Nat) (cs : Forest) : List Ev :=
  specPostBlocks cs ++ [Ev.init root, Ev.fin root]

/-! ### Exact numeric values

Estimate values are exact rationals in reduced form (`Frac`), with ordinary
integer arithmetic; Python's float comparisons and `round(x, 1)`
(round-half-to-even) are modelled on these exact values — every number the
claims mention (hours 0/3/5/8/20, days 2.5) is exactly representable. -/

/-- An exact rational: integer numerator, positive natural denominator,
kept in reduced form by the smart constructors below. -/
structure Frac where
  num : Int
  den : Nat
  deriving DecidableEq, Repr

/-- Build a reduced fraction from an integer numerator and a natural
denominator (denominators are never zero in this development). -/
def mkFrac (n : Int) (d : Nat) : Frac :=
  if d = 0 then ⟨0, 1⟩
  else
    let g := Nat.gcd n.natAbs d
    ⟨n / (g : Int), d / g⟩

/-- Build a reduced fraction from an integer numerator and denominator. -/
def mkFracI (n d : Int) : Frac :=
  if d < 0 then mkFrac (-n) (-d).toNat else mkFrac n d.toNat

/-- The integer `n` as a fraction. -/
def fInt (n : Int) : Frac := ⟨n, 1⟩

def Frac.add (a b : Frac) : Frac :=
  mkFrac (a.num * (b.den : Int) + b.num * (a.den : Int)) (a.den * b.den)

def Frac.sub (a b : Frac) : Frac :=
  mkFrac (a.num * (b.den : Int) - b.num * (a.den : Int)) (a.den * b.den)

def Frac.mul (a b : Frac) : Frac :=
  mkFrac (a.num * b.num) (a.den * b.den)

def Frac.div (a b : Frac) : Frac :=
  mkFracI (a.num * (b.den : Int)) (b.num * (a.den : Int))

/-- The floor of a fraction. -/
def Frac.floorI (a : Frac) : Int := a.num.fdiv (a.den : Int)

/-- Python `round` to the nearest integer, ties to even. -/
def pyRound (q : Frac) : Int :=
  let f := q.floorI
  let r := q.sub (fInt f)
  if 2 * r.num < (r.den : Int) then f
  else if (r.den : Int) < 2 * r.num then f + 1
  else if f % 2 = 0 then f else f + 1

/-- Python `round(q, 1)`. -/
def pyRound1 (q : Frac) : Frac := mkFracI (pyRound (q.mul (fInt 10))) 10

/-! ### The estimate rollup (`UpdateEstimatesForTask`) and custom fields

Custom fields are modelled as an association list from field names to an
optional numeric value: a key that is absent models a field that does not
exist on the task (`_field` returns `None`), a key mapped to `none` models an
existing field whose stored value is null. -/

/-- The five custom fields used by `UpdateEstimatesForTask` (estimate hours,
completed hours, remaining hours, estimate days, remaining days). -/
inductive FName where
  | estH | compH | remH | estD | remD
  deriving DecidableEq, Repr

/-- The custom-field mapping of one task. -/
abbrev Fields := List (FName × Option Frac)

/-- `AsanaTask.field_value`: `None` when the field does not exist on the
task, else the stored (possibly null) value. -/
def field_value (fs : Fields) (n : FName) : Option Frac :=
  match fs.lookup n with
  | none => none
  | some v => v

/-- `AsanaTask.update_field`: nothing happens when the stored value already
equals the new one; a field that does not exist on the task is skipped;
otherwise the value is written through (the `Bool` records whether a store
update was issued). -/
def update_field (fs : Fields) (n : FName) (v : Frac) : Fields × Bool :=
  if field_value fs n = some v then (fs, false)
  else
    match fs.lookup n with
    | none => (fs, false)
    | some _ => (fs.map fun q => if q.1 = n then (q.1, some v) else q, true)

/-- A task as the rollup sees it: completion flag and custom fields. -/
structure RTask where
  completed : Bool
  fields : Fields
  deriving DecidableEq, Repr

/-- The store state for the rollup: task records by id. -/
abbrev RState := List (Nat × RTask)

/-- Fetch a task (the Python object graph guarantees presence; a missing id
yields an inert default record). -/
def getRTask (σ : RState) (i : Nat) : RTask :=
  (σ.lookup i).getD ⟨false, []⟩

/-- Write back a task's fields. -/
def setFields (σ : RState) (i : Nat) (fs : Fields) : RState :=
  σ.map fun q => if q.1 = i then (q.1, { q.2 with fields := fs }) else q

/-- A per-level accumulator triple (estimate, completed, remaining). -/
abbrev Triple := Frac × Frac × Frac

/-- The level buckets of `reduce` (`defaultdict(lambda: None)`); an absent
key is `None`. -/
abbrev Levels := List (Int × Triple)

def getLevel (lv : Levels) (l : Int) : Option Triple := lv.lookup l

def setLevel (lv : Levels) (l : Int) (v : Triple) : Levels :=
  if (lv.lookup l).isSome then lv.map fun q => if q.1 = l then (q.1, v) else q
  else lv ++ [(l, v)]

def delLevel (lv : Levels) (l : Int) : Levels := lv.filter fun q => q.1 ≠ l

/-- `UpdateEstimatesForTask.__initialize_task`: read the stored estimate
(0 when absent or null), derive completed and remaining from the completion
flag, and write remaining, completed and the two day fields, in that order
(the estimate field itself is not written). -/
def initEstimate (hpd : Frac) (t : RTask) : Fields :=
  let estimate := (field_value t.fields .estH).getD (fInt 0)
  let comp := if t.completed then estimate else fInt 0
  let rem := estimate.sub comp
  let fs1 := (update_field t.fields .remH rem).1
  let fs2 := (update_field fs1 .compH comp).1
  let fs3 := (update_field fs2 .estD (pyRound1 (estimate.div hpd))).1
  (update_field fs3 .remD (pyRound1 (rem.div hpd))).1

/-- `UpdateEstimatesForTask.__increment_estimate`: add the task's stored
estimate/completed/remaining hours (0 for absent or null) onto the
accumulator (`None` starts from the zero triple). -/
def incEstimate (t : RTask) (cur : Option Triple) : Triple :=
  let c := cur.getD (fInt 0, fInt 0, fInt 0)
  (c.1.add ((field_value t.fields .estH).getD (fInt 0)),
   c.2.1.add ((field_value t.fields .compH).getD (fInt 0)),
   c.2.2.add ((field_value t.fields .remH).getD (fInt 0)))

/-- `UpdateEstimatesForTask.__update_estimate`: `current = current or
(0, 0, 0)`, then write the accumulated estimate, completed and remaining
hours and the two derived day fields, in that order. -/
def updEstimate (hpd : Frac) (t : RTask) (cur : Option Triple) : Fields :=
  let c := cur.getD (fInt 0, fInt 0, fInt 0)
  let fs1 := (update_field t.fields .estH c.1).1
  let fs2 := (update_field fs1 .compH c.2.1).1
  let fs3 := (update_field fs2 .remH c.2.2).1
  let fs4 := (update_field fs3 .estD (pyRound1 (c.1.div hpd))).1
  (update_field fs4 .remD (pyRound1 (c.2.2.div hpd))).1

/-- The loop of `AsanaTask.reduce` (lines 173-179) with the estimate
callbacks, over the reversed leveled list: initialize the node; when its
level is below the previous one, finalize it from the deeper level's bucket
and clear that bucket; then fold the node's (just updated) fields into its
own level's bucket. -/
def reduceLoop (hpd : Frac) : List (Int × Nat) → RState → Levels → Int →
    RState × Levels
  | [], σ, lv, _ => (σ, lv)
  | (l, i) :: rest, σ, lv, prev =>
      let σ1 := setFields σ i (initEstimate hpd (getRTask σ i))
      let σ2 :=
        if l < prev then
          setFields σ1 i (updEstimate hpd (getRTask σ1 i) (getLevel lv prev))
        else σ1
      let lv2 := if l < prev then delLevel lv prev else lv
      let lv3 := setLevel lv2 l (incEstimate (getRTask σ2 i) (getLevel lv2 l))
      reduceLoop hpd rest σ2 lv3 l

/-- `AsanaTask.reduce` with `UpdateEstimatesForTask`'s callbacks on a root
whose subtask forest is `cs`: run the loop over the reversed leveled list
with `prev_level = -1`, then initialize the root and finalize it from the
level-0 bucket (lines 180-181). -/
def reduceEstimates (hpd : Frac) (σ : RState) (root : Nat) (cs : Forest) :
    RState :=
  let p := reduceLoop hpd ((lvlIds 0 cs).reverse) σ [] (-1)
  let σ2 := setFields p.1 root (initEstimate hpd (getRTask p.1 root))
  setFields σ2 root (updEstimate hpd (getRTask σ2 root) (getLevel p.2 0))

/-- A concrete custom-field mapping with all five estimate fields present:
stored estimate `e` hours, the other four 0. -/
def estFields (e : Int) : Fields :=
  [(FName.estH, some (fInt e)), (FName.compH, some (fInt 0)),
   (FName.remH, some (fInt 0)), (FName.estD, some (fInt 0)),
   (FName.remD, some (fInt 0))]

/-- The C6 store: parent 0 (stored estimate 0), leaf 1 with estimate 5
(incomplete), leaf 2 with estimate 3 (completed); all five fields present. -/
def c6State : RState :=
  [(0, ⟨false, estFields 0⟩), (1, ⟨false, estFields 5⟩), (2, ⟨true, estFields 3⟩)]

/-- The C6 tree: node 0 with children 1 and 2, in that order. -/
def c6Forest : Forest := Forest.tree 1 .nil (Forest.tree 2 .nil .nil)

/-- `AsanaTask.name` setter (lines 65-69): the store update is issued, and
the cached record changed, only when the new title differs from the cached
one (the `Bool` records whether a store update was issued). -/
def pySetName (t : HTask) (v : Str) : HTask × Bool :=
  if t.name = v then (t, false) else ({ t with name := v }, true)

/-! ### Theorems -/

/-! ### Facts about the name regex and `matches` -/

/-- The name regex matches a string iff it is non-empty and does not begin
with `'('` (the mandatory group `[^(]+` needs one leading non-`(` char). -/
theorem nmMatch_eq_none_iff (s : Str) :
    nmMatch s = none ↔ (s = [] ∨ s.head? = some '(') := by
  cases s with
  | nil => simp [nmMatch]
  | cons a r =>
    by_cases ha : a = '('
    · subst ha
      simp [nmMatch]
    · constructor
      · intro h
        exfalso
        have htw : List.takeWhile (fun c => decide (c ≠ '(')) (a :: r) =
            a :: List.takeWhile (fun c => decide (c ≠ '(')) r := by
          rw [List.takeWhile_cons]
          simp [ha]
        unfold nmMatch at h
        rw [htw, if_neg (List.cons_ne_nil a _)] at h
        split at h
        · exact Option.noConfusion h
        · split at h <;> exact Option.noConfusion h
      · intro h
        rcases h with h | h
        · cases h
        · simp only [List.head?_cons, Option.some.injEq] at h
          exact absurd h ha

theorem nmMatch_cons_ne (a : Char) (r : Str) (ha : ¬a = '(') :
    (nmMatch (a :: r)).isSome := by
  rw [Option.isSome_iff_ne_none]
  intro h
  rw [nmMatch_eq_none_iff] at h
  rcases h with h | h
  · cases h
  · simp only [List.head?_cons, Option.some.injEq] at h
    exact ha h

/-- C3: `NameParser(receiver).matches(candidate)`, whenever it returns a value
at all, returns `true` iff the receiver has exactly one path segment and
(the candidate's mnemonic equals the receiver's mnemonic, or the candidate's
plain name equals the receiver's plain name); a receiver with two or more
segments never matches any candidate; and `NameParser("Name (AB)")` matches
both `"Name"` and `"AB"`. -/
theorem matches_iff_one_segment_and_same_identity :
    (∀ (raw c : Str) (b : Bool), matchesOpt raw c = some b →
      (b = true ↔ ((parts raw).length = 1 ∧
        (candMnemonic c = recMnemonic raw ∨ candName c = recName raw))))
    ∧ (∀ raw c : Str, (parts raw).length ≠ 1 → matchesOpt raw c ≠ some true)
    ∧ matchesOpt "Name (AB)".toList "Name".toList = some true
    ∧ matchesOpt "Name (AB)".toList "AB".toList = some true := by
  refine ⟨?_, ?_, by decide, by decide⟩
  · intro raw c b h
    unfold matchesOpt at h
    cases hc : nmMatch c with
    | none => rw [hc, Option.none_bind] at h; exact Option.noConfusion h
    | some cp =>
      rw [hc, Option.some_bind'] at h
      by_cases hl : (parts raw).length = 1
      · rw [if_pos hl] at h
        cases hr : nmMatch (firstPart raw) with
        | none => rw [hr, Option.map_none'] at h; exact Option.noConfusion h
        | some rp =>
          rw [hr, Option.map_some'] at h
          simp only [Option.some.injEq] at h
          subst h
          simp [candMnemonic, candName, recMnemonic, recName, hc, hr, hl,
            Bool.or_eq_true, beq_iff_eq]
      · rw [if_neg hl] at h
        simp only [Option.some.injEq] at h
        subst h
        simp [hl]
  · intro raw c hl h
    unfold matchesOpt at h
    cases hc : nmMatch c with
    | none => rw [hc, Option.none_bind] at h; exact Option.noConfusion h
    | some cp =>
      rw [hc, Option.some_bind', if_neg hl] at h
      simp at h

/-- Witness for C3 at concrete inputs: receiver `"Name (AB)"`, candidate
`"AB"`, where `matchesOpt` returns `some true`. -/
theorem matches_iff_one_segment_and_same_identity_witness :
    (true = true ↔ ((parts "Name (AB)".toList).length = 1 ∧
      (candMnemonic "AB".toList = recMnemonic "Name (AB)".toList ∨
        candName "AB".toList = recName "Name (AB)".toList))) ∧
    matchesOpt "Name > Child".toList "Name".toList ≠ some true :=
  ⟨matches_iff_one_segment_and_same_identity.1 "Name (AB)".toList "AB".toList
      true (by decide),
    matches_iff_one_segment_and_same_identity.2.1 "Name > Child".toList
      "Name".toList (by decide)⟩

/-- C10: the operations `name`, `abbreviation`, `mnemonic` of `NameParser`
are defined only when the untagged first segment of the receiver has at least
one character other than `'('` (and `matches` only when the candidate string
does); whenever the untagged first segment (resp. the candidate string) is
empty or begins with `'('`, the name regex fails to match and the operation
raises (modelled as `none`); in particular for `""`, `"(AB)"`, `"[Tag]"` and
`"> Child"`. -/
theorem name_operations_partiality :
    (∀ raw : Str, (firstPart raw = [] ∨ (firstPart raw).head? = some '(') →
      recName raw = none ∧ recAbbr raw = none ∧ recMnemonic raw = none)
    ∧ (∀ raw : Str,
        (recName raw).isSome ∨ (recAbbr raw).isSome ∨ (recMnemonic raw).isSome →
        ∃ ch ∈ firstPart raw, ch ≠ '(')
    ∧ (∀ raw c : Str, (c = [] ∨ c.head? = some '(') → matchesOpt raw c = none)
    ∧ (∀ raw c : Str, (matchesOpt raw c).isSome → ∃ ch ∈ c, ch ≠ '(')
    ∧ recName "".toList = none ∧ recName "(AB)".toList = none
    ∧ recName "[Tag]".toList = none ∧ recName "> Child".toList = none := by
  have hsome : ∀ s : Str, (nmMatch s).isSome → ∃ ch ∈ s, ch ≠ '(' := by
    intro s hs
    cases s with
    | nil =>
      rw [show nmMatch [] = none from by decide] at hs
      simp at hs
    | cons a r =>
      by_cases ha : a = '('
      · subst ha
        exfalso
        rw [Option.isSome_iff_ne_none] at hs
        exact hs ((nmMatch_eq_none_iff _).2 (Or.inr rfl))
      · exact ⟨a, List.mem_cons_self a r, ha⟩
  refine ⟨?_, ?_, ?_, ?_, by decide, by decide, by decide, by decide⟩
  · intro raw hbad
    have h : nmMatch (firstPart raw) = none := by
      rw [nmMatch_eq_none_iff]
      exact hbad
    exact ⟨by simp [recName, h], by simp [recAbbr, h], by simp [recMnemonic, h]⟩
  · intro raw hdef
    apply hsome
    cases hm : nmMatch (firstPart raw) with
    | none =>
      exfalso
      rcases hdef with h | h | h <;>
        simp [recName, recAbbr, recMnemonic, hm] at h
    | some p => simp
  · intro raw c hbad
    have h : nmMatch c = none := (nmMatch_eq_none_iff _).2 hbad
    unfold matchesOpt
    rw [h, Option.none_bind]
  · intro raw c hdef
    apply hsome
    cases hm : nmMatch c with
    | none =>
      exfalso
      unfold matchesOpt at hdef
      rw [hm, Option.none_bind] at hdef
      simp at hdef
    | some cp => simp

/-- Witness for C10: applying the partiality theorem at the concrete receiver
`"(AB)"` (whose untagged first segment begins with `'('`) and the concrete
candidate `"(AB)"`. -/
theorem name_operations_partiality_witness :
    (recName "(AB)".toList = none ∧ recAbbr "(AB)".toList = none ∧
      recMnemonic "(AB)".toList = none) ∧
    matchesOpt "Name".toList "(AB)".toList = none :=
  ⟨name_operations_partiality.1 "(AB)".toList (by decide),
    name_operations_partiality.2.2.1 "Name".toList "(AB)".toList (by decide)⟩

/-- C2: running `BuildHierarchy.__build_hierarchy` on the single task
`"Area (AR) > Feature > Do the thing"` of a section with no pre-existing
nodes terminates and leaves: a task titled `"Area (AR)"` (incomplete, no
parent) directly in the section's task list; a task titled `"Feature"` whose
parent is `"Area (AR)"` and which is its child; and the original task titled
`"[AR Feature] Do the thing"` parented under `"Feature"`. -/
theorem end_to_end_reconciliation_scenario :
    ((buildHierarchy 5 0 c2Init).bind fun st => lookupTask st 1) =
      some ⟨"Area (AR)".toList, false, none⟩
    ∧ ((buildHierarchy 5 0 c2Init).map fun st => st.sectionTasks) = some [0, 1]
    ∧ ((buildHierarchy 5 0 c2Init).bind fun st => lookupTask st 2) =
      some ⟨"Feature".toList, false, some 1⟩
    ∧ ((buildHierarchy 5 0 c2Init).map fun st => subtasksOf st 1) = some [2]
    ∧ ((buildHierarchy 5 0 c2Init).bind fun st => lookupTask st 0) =
      some ⟨"[AR Feature] Do the thing".toList, false, some 2⟩ := by
  decide

/-- C1 (failing-input evidence): on the task titled `"A >"` the title has two
segments (`["A", ""]`), and because the remainder is empty, step 7's rewrite
`self.remainder or self.untagged` falls back to the whole untagged old title:
one pass creates a parent `"A"`, reparents the task under it and renames it
to `"[A] A >"` — whose untagged form is again the two-segment `"A >"`.  The
re-derived title thus regains a multi-segment form and the recursion never
reaches the single-segment exit (`none` for fuel 12, each pass creating yet
another `"A"` node), so a run over this section never completes, contradicting
the claimed idempotence. -/
theorem reconciliation_diverges_on_empty_remainder :
    (parts "A >".toList).length = 2
    ∧ hierarchyPass 0 c1Init =
        PassResult.next
          ⟨2, [(0, ⟨"[A] A >".toList, false, some 1⟩),
               (1, ⟨"A".toList, false, none⟩)], [(1, [0])], [0, 1]⟩
    ∧ (parts "[A] A >".toList).length = 2
    ∧ buildHierarchy 12 0 c1Init = none := by
  decide

theorem findParent_cons (st : HState) (seg : Str) (i : Nat) (rest : List Nat) :
    findParent st seg (i :: rest) =
      match scopeHit st seg i with
      | none => none
      | some true => some (some i)
      | some false => findParent st seg rest := by
  cases hl : lookupTask st i with
  | none => simp [findParent, scopeHit, hl]
  | some t =>
      by_cases hc : t.completed
      · simp [findParent, scopeHit, hl, hc]
      · cases hm : matchesOpt t.name seg with
        | none => simp [findParent, scopeHit, hl, hc, hm]
        | some b => cases b <;> simp [findParent, scopeHit, hl, hc, hm]

/-- C7: the parent chosen by `_attach_parent`'s search is exactly the first
node of the scope, in the scope's existing order, that is not completed and
whose title matches the segment (every earlier scope node tests negatively);
in particular a chosen parent is never completed and several qualifying
nodes are tie-broken by taking the first. -/
theorem parent_choice_first_non_completed_match :
    (∀ (st : HState) (seg : Str) (ids : List Nat) (i : Nat),
        findParent st seg ids = some (some i) ↔
          ∃ pre post, ids = pre ++ i :: post ∧ scopeHit st seg i = some true ∧
            ∀ j ∈ pre, scopeHit st seg j = some false)
    ∧ (∀ (st : HState) (seg : Str) (ids : List Nat) (i : Nat) (t : HTask),
        findParent st seg ids = some (some i) → lookupTask st i = some t →
          t.completed = false ∧ matchesOpt t.name seg = some true) := by
  have hmain : ∀ (st : HState) (seg : Str) (ids : List Nat) (i : Nat),
      findParent st seg ids = some (some i) ↔
        ∃ pre post, ids = pre ++ i :: post ∧ scopeHit st seg i = some true ∧
          ∀ j ∈ pre, scopeHit st seg j = some false := by
    intro st seg ids i
    induction ids with
    | nil =>
      constructor
      · intro h
        rw [show findParent st seg [] = some none from rfl] at h
        simp at h
      · rintro ⟨pre, post, hdec, -, -⟩
        exact absurd hdec (by simp)
    | cons a rest ih =>
      rw [findParent_cons]
      cases hhit : scopeHit st seg a with
      | none =>
        constructor
        · intro h
          exact Option.noConfusion h
        · rintro ⟨pre, post, hdec, hi, hpre⟩
          cases pre with
          | nil =>
            simp only [List.nil_append, List.cons.injEq] at hdec
            rw [← hdec.1] at hi
            rw [hi] at hhit
            exact Option.noConfusion hhit
          | cons b pre =>
            simp only [List.cons_append, List.cons.injEq] at hdec
            have hb := hpre b (List.mem_cons_self b pre)
            rw [← hdec.1] at hb
            rw [hb] at hhit
            exact Option.noConfusion hhit
      | some b =>
        cases b with
        | true =>
          constructor
          · intro h
            simp only [Option.some.injEq] at h
            refine ⟨[], rest, ?_, ?_, by simp⟩
            · rw [h]
              simp
            · rw [← h]
              exact hhit
          · rintro ⟨pre, post, hdec, hi, hpre⟩
            cases pre with
            | nil =>
              simp only [List.nil_append, List.cons.injEq] at hdec
              rw [hdec.1]
            | cons b pre =>
              simp only [List.cons_append, List.cons.injEq] at hdec
              have hb := hpre b (List.mem_cons_self b pre)
              rw [← hdec.1] at hb
              rw [hb] at hhit
              simp at hhit
        | false =>
          rw [ih]
          constructor
          · rintro ⟨pre, post, hdec, hi, hpre⟩
            refine ⟨a :: pre, post, by rw [hdec]; rfl, hi, ?_⟩
            intro j hj
            rcases List.mem_cons.1 hj with hj | hj
            · rw [hj]
              exact hhit
            · exact hpre j hj
          · rintro ⟨pre, post, hdec, hi, hpre⟩
            cases pre with
            | nil =>
              simp only [List.nil_append, List.cons.injEq] at hdec
              rw [← hdec.1] at hi
              rw [hi] at hhit
              simp at hhit
            | cons b pre =>
              simp only [List.cons_append, List.cons.injEq] at hdec
              refine ⟨pre, post, hdec.2, hi, ?_⟩
              intro j hj
              exact hpre j (List.mem_cons_of_mem b hj)
  refine ⟨hmain, ?_⟩
  intro st seg ids i t hfind hlook
  obtain ⟨pre, post, -, hi, -⟩ := (hmain st seg ids i).1 hfind
  simp only [scopeHit, hlook] at hi
  by_cases hc : t.completed
  · rw [if_pos hc] at hi
    simp at hi
  · rw [if_neg hc] at hi
    exact ⟨by simpa using hc, hi⟩

/-- Witness for C7 at a concrete scope: in a store where task 0 is a
completed `"A"` and task 1 an incomplete `"A"`, the search over scope
`[0, 1]` chooses task 1 (skipping the completed earlier match), and the
chosen task is not completed and matches. -/
theorem parent_choice_first_non_completed_match_witness :
    (findParent ⟨2, [(0, ⟨"A".toList, true, none⟩), (1, ⟨"A".toList, false, none⟩)],
        [], [0, 1]⟩ "A".toList [0, 1] = some (some 1) ↔
      ∃ pre post, [0, 1] = pre ++ 1 :: post ∧
        scopeHit ⟨2, [(0, ⟨"A".toList, true, none⟩), (1, ⟨"A".toList, false, none⟩)],
          [], [0, 1]⟩ "A".toList 1 = some true ∧
        ∀ j ∈ pre,
          scopeHit ⟨2, [(0, ⟨"A".toList, true, none⟩), (1, ⟨"A".toList, false, none⟩)],
            [], [0, 1]⟩ "A".toList j = some false) ∧
    ((⟨"A".toList, false, none⟩ : HTask).completed = false ∧
      matchesOpt "A".toList "A".toList = some true) :=
  ⟨parent_choice_first_non_completed_match.1
      ⟨2, [(0, ⟨"A".toList, true, none⟩), (1, ⟨"A".toList, false, none⟩)], [], [0, 1]⟩
      "A".toList [0, 1] 1,
    parent_choice_first_non_completed_match.2
      ⟨2, [(0, ⟨"A".toList, true, none⟩), (1, ⟨"A".toList, false, none⟩)], [], [0, 1]⟩
      "A".toList [0, 1] 1 ⟨"A".toList, false, none⟩ (by decide) (by decide)⟩

/-- A space-joined list of non-empty strings is empty iff the list is. -/
theorem intercalate_eq_nil_iff (s : Str) (l : List Str) (h : ∀ m ∈ l, m ≠ []) :
    List.intercalate s l = [] ↔ l = [] := by
  cases l with
  | nil => simp [List.intercalate]
  | cons a t =>
    have ha : a ≠ [] := h a (List.mem_cons_self a t)
    constructor
    · intro hc
      exfalso
      cases t with
      | nil =>
        rw [show List.intercalate s [a] = a from by simp [List.intercalate]] at hc
        exact ha hc
      | cons b t2 =>
        rw [show List.intercalate s (a :: b :: t2) =
            a ++ (s ++ List.intercalate s (b :: t2)) from by
          simp [List.intercalate, List.intersperse]] at hc
        exact ha (List.append_eq_nil.1 hc).1
    · intro hc
      exact absurd hc (by simp)

/-- C8 counterexample: for the one-segment title `"Name (AB)"` (empty
remainder) under a single ancestor of mnemonic `"P"`, the code rewrites the
title to `"[P] Name (AB)"` — the untagged title, abbreviation included —
whereas the claim's fallback to the plain name predicts `"[P] Name"`. -/
theorem tagged_name_fallback_counterexample :
    taggedNameFrom "Name (AB)".toList ["P".toList] = "[P] Name (AB)".toList
    ∧ specTaggedNameClaim "Name (AB)".toList ["P".toList] = some "[P] Name".toList
    ∧ "[P] Name (AB)".toList ≠ "[P] Name".toList := by
  decide

/-- C8 (amended): the step-7 rewrite prefixes the bracketed, root-most-first
concatenation of the ancestors' mnemonics exactly when any ancestor mnemonics
exist, to the plain remainder — falling back, when the remainder is empty, to
the task's untagged title (not its plain name).  `ancMnems` is the
nearest-parent-first list collected by the `tags` walk (each mnemonic is a
non-empty string, see `recMnemonic`), so root-most first is its reversal. -/
theorem tagged_name_is_bracketed_mnemonics_over_remainder
    (raw : Str) (ancMnems : List Str) (h : ∀ m ∈ ancMnems, m ≠ []) :
    taggedNameFrom raw ancMnems = specTaggedNameAmended raw ancMnems.reverse := by
  have hrev : ∀ m ∈ ancMnems.reverse, m ≠ [] := by
    intro m hm
    exact h m (List.mem_reverse.1 hm)
  unfold taggedNameFrom specTaggedNameAmended
  by_cases hnil : ancMnems.reverse = []
  · rw [if_pos ((intercalate_eq_nil_iff _ _ hrev).2 hnil), if_pos hnil]
  · rw [if_neg fun hc => hnil ((intercalate_eq_nil_iff _ _ hrev).1 hc),
      if_neg hnil]

/-- Witness for C8 (amended) at a concrete input: title
`"[X] Name (AB) > Sub"` with ancestor mnemonics `["F", "AR"]`
(nearest parent first). -/
theorem tagged_name_is_bracketed_mnemonics_over_remainder_witness :
    taggedNameFrom "[X] Name (AB) > Sub".toList ["F".toList, "AR".toList] =
      specTaggedNameAmended "[X] Name (AB) > Sub".toList
        ["F".toList, "AR".toList].reverse :=
  tagged_name_is_bracketed_mnemonics_over_remainder
    "[X] Name (AB) > Sub".toList ["F".toList, "AR".toList] (by decide)

theorem lastLvl_cons (l : Int) (i : Nat) (xs : List (Int × Nat)) (prev : Int) :
    lastLvl ((l, i) :: xs) prev = lastLvl xs l := by
  cases xs with
  | nil => simp [lastLvl]
  | cons b ys =>
    unfold lastLvl
    rw [List.getLast?_cons_cons]
    cases hg : (b :: ys).getLast? with
    | none => exact absurd hg (by simp)
    | some p => rfl

theorem lastLvl_append (xs ys : List (Int × Nat)) (prev : Int) :
    lastLvl (xs ++ ys) prev = lastLvl ys (lastLvl xs prev) := by
  induction xs generalizing prev with
  | nil => simp [lastLvl]
  | cons a xs ih =>
    obtain ⟨l, i⟩ := a
    rw [List.cons_append, lastLvl_cons, lastLvl_cons, ih]

theorem loopTr_append (xs ys : List (Int × Nat)) (prev : Int) :
    loopTr (xs ++ ys) prev = loopTr xs prev ++ loopTr ys (lastLvl xs prev) := by
  induction xs generalizing prev with
  | nil => simp [loopTr, lastLvl]
  | cons a xs ih =>
    obtain ⟨l, i⟩ := a
    rw [List.cons_append]
    show Ev.init i :: ((if l < prev then [Ev.fin i] else []) ++
        (Ev.comb i :: loopTr (xs ++ ys) l)) = _
    rw [ih, lastLvl_cons]
    simp [loopTr]

/-- The reversed leveled listing of a forest at base level `m`, entered with
a shallower previous level, produces exactly the reverse-order post-order
blocks, and leaves the previous level at `m` (or untouched when empty). -/
theorem loopTr_lvlIds (f : Forest) : ∀ m prev : Int, prev < m →
    loopTr ((lvlIds m f).reverse) prev = revPostBlocks f
    ∧ lastLvl ((lvlIds m f).reverse) prev = if f.isNil then prev else m := by
  induction f with
  | nil =>
    intro m prev _
    exact ⟨rfl, rfl⟩
  | tree i cs rest ihcs ihrest =>
    intro m prev hprev
    have hrev : (lvlIds m (.tree i cs rest)).reverse =
        (lvlIds m rest).reverse ++ ((lvlIds (m + 1) cs).reverse ++ [(m, i)]) := by
      show ((m, i) :: (lvlIds (m + 1) cs ++ lvlIds m rest)).reverse = _
      rw [List.reverse_cons, List.reverse_append, List.append_assoc]
    obtain ⟨hres, hlast⟩ := ihrest m prev hprev
    have hp1 : lastLvl ((lvlIds m rest).reverse) prev < m + 1 := by
      rw [hlast]
      split <;> omega
    obtain ⟨hcsr, hcsl⟩ := ihcs (m + 1) _ hp1
    constructor
    · rw [hrev, loopTr_append, hres, loopTr_append, hcsr]
      have hfin : loopTr [(m, i)] (lastLvl ((lvlIds (m + 1) cs).reverse)
            (lastLvl ((lvlIds m rest).reverse) prev)) =
          Ev.init i :: ((if cs.isNil then [] else [Ev.fin i]) ++ [Ev.comb i]) := by
        rw [hcsl]
        cases hn : cs.isNil with
        | true =>
          have : ¬ m < lastLvl ((lvlIds m rest).reverse) prev := by
            rw [hlast]
            split <;> omega
          simp [loopTr, this]
        | false =>
          have : m < m + 1 := by omega
          simp [loopTr, this]
      rw [hfin]
      rfl
    · rw [hrev, lastLvl_append, lastLvl_append]
      show lastLvl [(m, i)] _ = if (Forest.tree i cs rest).isNil then prev else m
      rfl

/-- C4 counterexample: for a root `0` with children `1` and `2` (both
leaves, in that order), the callback sequence of `reduce` is not the
post-order reference sequence the claim describes — the code initializes and
folds `2` before `1` (reverse sibling order) and never finalizes the leaves. -/
theorem reduce_trace_counterexample :
    codeTrace 0 (Forest.tree 1 .nil (Forest.tree 2 .nil .nil)) ≠
      specPostTrace 0 (Forest.tree 1 .nil (Forest.tree 2 .nil .nil))
    ∧ codeTrace 0 (Forest.tree 1 .nil (Forest.tree 2 .nil .nil)) =
      [Ev.init 2, Ev.comb 2, Ev.init 1, Ev.comb 1, Ev.init 0, Ev.fin 0]
    ∧ specPostTrace 0 (Forest.tree 1 .nil (Forest.tree 2 .nil .nil)) =
      [Ev.init 1, Ev.fin 1, Ev.comb 1, Ev.init 2, Ev.fin 2, Ev.comb 2,
        Ev.init 0, Ev.fin 0] := by
  refine ⟨?_, by decide, by decide⟩
  decide

/-- C4 (amended): for every tree, the iterative reverse-order level-bucket
fold of `AsanaTask.reduce` is equivalent to a recursive post-order fold in
which siblings are folded into their parent's accumulator in *reverse*
(right-to-left) child-list order, every descendant is initialized — and every
descendant with children finalized — strictly before its parent is finalized,
childless non-root nodes are never passed to the finalizer, and the root is
always initialized and finalized last. -/
theorem reduce_is_reverse_postorder_fold (root : Nat) (cs : Forest) :
    codeTrace root cs = revPostTrace root cs := by
  unfold codeTrace revPostTrace
  rw [(loopTr_lvlIds cs 0 (-1) (by omega)).1]

/-! ### Field-update lemmas -/

theorem field_value_eq_some_iff (fs : Fields) (n : FName) (v : Frac) :
    field_value fs n = some v ↔ fs.lookup n = some (some v) := by
  unfold field_value
  cases fs.lookup n with
  | none => simp
  | some w => simp

theorem lookup_map_update_self (fs : Fields) (n : FName) (v : Frac) :
    (fs.map fun q => if q.1 = n then (q.1, some v) else q).lookup n =
      (fs.lookup n).map fun _ => some v := by
  induction fs with
  | nil => rfl
  | cons q fs ih =>
    obtain ⟨k, w⟩ := q
    by_cases hk : k = n
    · subst hk
      simp [List.lookup_cons]
    · have hnk : (n == k) = false := by simp [Ne.symm hk]
      simp only [List.map_cons, if_neg hk, List.lookup_cons, hnk]
      exact ih

theorem lookup_map_update_other (fs : Fields) (n m : FName) (v : Frac)
    (h : m ≠ n) :
    (fs.map fun q => if q.1 = n then (q.1, some v) else q).lookup m =
      fs.lookup m := by
  induction fs with
  | nil => rfl
  | cons q fs ih =>
    obtain ⟨k, w⟩ := q
    by_cases hk : k = n
    · subst hk
      have hmk : (m == k) = false := by simp [h]
      simp only [List.map_cons, eq_self_iff_true, if_true, List.lookup_cons, hmk]
      exact ih
    · by_cases hm : m = k
      · subst hm
        simp [List.lookup_cons, hk]
      · have hmk : (m == k) = false := by simp [hm]
        simp only [List.map_cons, if_neg hk, List.lookup_cons, hmk]
        exact ih

theorem update_field_lookup_self (fs : Fields) (n : FName) (v : Frac)
    (h : (fs.lookup n).isSome) :
    (update_field fs n v).1.lookup n = some (some v) := by
  unfold update_field
  by_cases hg : field_value fs n = some v
  · rw [if_pos hg]
    exact (field_value_eq_some_iff fs n v).1 hg
  · rw [if_neg hg]
    cases hl : fs.lookup n with
    | none => rw [hl] at h; exact absurd h (by simp)
    | some w =>
      simp only
      rw [lookup_map_update_self, hl]
      rfl

theorem update_field_lookup_other (fs : Fields) (n m : FName) (v : Frac)
    (h : m ≠ n) :
    (update_field fs n v).1.lookup m = fs.lookup m := by
  unfold update_field
  by_cases hg : field_value fs n = some v
  · rw [if_pos hg]
  · rw [if_neg hg]
    cases hl : fs.lookup n with
    | none => rfl
    | some w =>
      simp only
      exact lookup_map_update_other fs n m v h

theorem update_field_isSome (fs : Fields) (n m : FName) (v : Frac) :
    ((update_field fs n v).1.lookup m).isSome = (fs.lookup m).isSome := by
  by_cases h : m = n
  · subst h
    unfold update_field
    by_cases hg : field_value fs m = some v
    · rw [if_pos hg]
    · rw [if_neg hg]
      cases hl : fs.lookup m with
      | none => rw [hl]
      | some w =>
        simp only
        rw [lookup_map_update_self, hl]
        rfl
  · rw [update_field_lookup_other fs n m v h]

theorem field_value_update_self (fs : Fields) (n : FName) (v : Frac)
    (h : (fs.lookup n).isSome) :
    field_value (update_field fs n v).1 n = some v := by
  unfold field_value
  rw [update_field_lookup_self fs n v h]

theorem field_value_update_other (fs : Fields) (n m : FName) (v : Frac)
    (h : m ≠ n) :
    field_value (update_field fs n v).1 m = field_value fs m := by
  unfold field_value
  rw [update_field_lookup_other fs n m v h]

/-- The updater writes the accumulated triple (the zero triple for an absent
accumulator) into the three hour fields, whenever those fields exist. -/
theorem updEstimate_hour_values (hpd : Frac) (t : RTask) (cur : Option Triple)
    (hE : (t.fields.lookup .estH).isSome)
    (hC : (t.fields.lookup .compH).isSome)
    (hR : (t.fields.lookup .remH).isSome) :
    field_value (updEstimate hpd t cur) .estH =
      some (cur.getD (fInt 0, fInt 0, fInt 0)).1
    ∧ field_value (updEstimate hpd t cur) .compH =
      some (cur.getD (fInt 0, fInt 0, fInt 0)).2.1
    ∧ field_value (updEstimate hpd t cur) .remH =
      some (cur.getD (fInt 0, fInt 0, fInt 0)).2.2 := by
  unfold updEstimate
  refine ⟨?_, ?_, ?_⟩
  · rw [field_value_update_other _ _ _ _ (by decide),
      field_value_update_other _ _ _ _ (by decide),
      field_value_update_other _ _ _ _ (by decide),
      field_value_update_other _ _ _ _ (by decide),
      field_value_update_self _ _ _ hE]
  · rw [field_value_update_other _ _ _ _ (by decide),
      field_value_update_other _ _ _ _ (by decide),
      field_value_update_other _ _ _ _ (by decide),
      field_value_update_self _ _ _ (by rw [update_field_isSome]; exact hC)]
  · rw [field_value_update_other _ _ _ _ (by decide),
      field_value_update_other _ _ _ _ (by decide),
      field_value_update_self _ _ _
        (by rw [update_field_isSome, update_field_isSome]; exact hR)]

theorem lookup_setFields_self (σ : RState) (i : Nat) (fs : Fields) (t : RTask)
    (h : σ.lookup i = some t) :
    (setFields σ i fs).lookup i = some ⟨t.completed, fs⟩ := by
  unfold setFields
  induction σ with
  | nil => exact absurd h (by simp)
  | cons q σ ih =>
    obtain ⟨k, u⟩ := q
    by_cases hk : k = i
    · subst hk
      rw [List.lookup_cons_self] at h
      cases h
      simp [List.lookup_cons]
    · have hik : (i == k) = false := by simp [Ne.symm hk]
      rw [List.lookup_cons, hik] at h
      simp only at h
      simp only [List.map_cons, if_neg hk, List.lookup_cons, hik]
      exact ih h

/-- C5 counterexample: a childless root with stored estimate 5 (incomplete).
The rollup zeroes its estimate and remaining hours, whereas the initializer's
output keeps estimate 5 and writes remaining 5 — so the finalized fields do
not equal the initializer's output. -/
theorem childless_root_rollup_counterexample :
    field_value (getRTask (reduceEstimates (fInt 8)
        [(0, ⟨false, estFields 5⟩)] 0 .nil) 0).fields .estH = some (fInt 0)
    ∧ field_value (getRTask (reduceEstimates (fInt 8)
        [(0, ⟨false, estFields 5⟩)] 0 .nil) 0).fields .remH = some (fInt 0)
    ∧ field_value (initEstimate (fInt 8) ⟨false, estFields 5⟩) .estH =
      some (fInt 5)
    ∧ field_value (initEstimate (fInt 8) ⟨false, estFields 5⟩) .remH =
      some (fInt 5)
    ∧ fInt 0 ≠ fInt 5 := by
  decide

/-- C5 (amended): on a task with no children, the rollup finalizes the root
with an *absent* accumulator, treated as the zero triple — the run is exactly
initializer followed by updater-with-`None`.  Because the updater writes the
accumulated triple over the stored fields, the root's estimate, completed and
remaining hours all become 0 (whenever those fields exist on the task),
rather than staying at whatever the initializer produced. -/
theorem childless_root_finalized_with_zero_triple
    (hpd : Frac) (σ : RState) (root : Nat) (t : RTask)
    (hl : σ.lookup root = some t)
    (hE : (t.fields.lookup .estH).isSome)
    (hC : (t.fields.lookup .compH).isSome)
    (hR : (t.fields.lookup .remH).isSome) :
    reduceEstimates hpd σ root .nil =
      setFields (setFields σ root (initEstimate hpd (getRTask σ root))) root
        (updEstimate hpd
          (getRTask (setFields σ root (initEstimate hpd (getRTask σ root))) root)
          none)
    ∧ field_value (getRTask (reduceEstimates hpd σ root .nil) root).fields
        .estH = some (fInt 0)
    ∧ field_value (getRTask (reduceEstimates hpd σ root .nil) root).fields
        .compH = some (fInt 0)
    ∧ field_value (getRTask (reduceEstimates hpd σ root .nil) root).fields
        .remH = some (fInt 0) := by
  have h1 : getRTask σ root = t := by
    unfold getRTask
    rw [hl]
    rfl
  have h2 : (setFields σ root (initEstimate hpd (getRTask σ root))).lookup root =
      some ⟨t.completed, initEstimate hpd t⟩ := by
    rw [h1]
    exact lookup_setFields_self σ root _ t hl
  have h3 : getRTask (setFields σ root (initEstimate hpd (getRTask σ root))) root =
      ⟨t.completed, initEstimate hpd t⟩ := by
    show ((setFields σ root (initEstimate hpd (getRTask σ root))).lookup
        root).getD ⟨false, []⟩ = _
    rw [h2]
    rfl
  have h4 : (reduceEstimates hpd σ root .nil).lookup root =
      some ⟨t.completed,
        updEstimate hpd ⟨t.completed, initEstimate hpd t⟩ none⟩ := by
    show (setFields (setFields σ root (initEstimate hpd (getRTask σ root))) root
        (updEstimate hpd
          (getRTask (setFields σ root (initEstimate hpd (getRTask σ root))) root)
          none)).lookup root = _
    rw [h3]
    exact lookup_setFields_self _ root _ ⟨t.completed, initEstimate hpd t⟩ h2
  have h5 : getRTask (reduceEstimates hpd σ root .nil) root =
      ⟨t.completed, updEstimate hpd ⟨t.completed, initEstimate hpd t⟩ none⟩ := by
    show ((reduceEstimates hpd σ root .nil).lookup root).getD ⟨false, []⟩ = _
    rw [h4]
    rfl
  have hpres : ∀ m : FName,
      ((initEstimate hpd t).lookup m).isSome = (t.fields.lookup m).isSome := by
    intro m
    simp only [initEstimate, update_field_isSome]
  obtain ⟨hx, hy, hz⟩ :=
    updEstimate_hour_values hpd ⟨t.completed, initEstimate hpd t⟩ none
      (by show ((initEstimate hpd t).lookup FName.estH).isSome = true
          rw [hpres]
          exact hE)
      (by show ((initEstimate hpd t).lookup FName.compH).isSome = true
          rw [hpres]
          exact hC)
      (by show ((initEstimate hpd t).lookup FName.remH).isSome = true
          rw [hpres]
          exact hR)
  have h6 : (getRTask (reduceEstimates hpd σ root .nil) root).fields =
      updEstimate hpd ⟨t.completed, initEstimate hpd t⟩ none := by
    rw [h5]
  refine ⟨rfl, ?_, ?_, ?_⟩
  · rw [h6]
    exact hx
  · rw [h6]
    exact hy
  · rw [h6]
    exact hz

/-- Witness for C5 (amended) at the concrete childless root with stored
estimate 5: the rollup leaves estimate hours 0. -/
theorem childless_root_finalized_with_zero_triple_witness :
    field_value (getRTask (reduceEstimates (fInt 8)
        [(0, ⟨false, estFields 5⟩)] 0 .nil) 0).fields .estH = some (fInt 0) :=
  (childless_root_finalized_with_zero_triple (fInt 8)
    [(0, ⟨false, estFields 5⟩)] 0 ⟨false, estFields 5⟩
    (by decide) (by decide) (by decide) (by decide)).2.1

/-- C6: with `hoursPerDay = 8` (the value the claim fixes for the
`constants` module), the estimate rollup on parent P with leaf A
(estimate 5, incomplete) and leaf B (estimate 3, complete) yields
P = (8, 3, 5), A = (5, 0, 5), B = (3, 3, 0); and a node finalized with 20
accumulated estimate hours gets `estimate_days = round(20 / 8, 1) = 2.5`. -/
theorem rollup_numeric_example :
    field_value (getRTask (reduceEstimates (fInt 8) c6State 0 c6Forest) 0).fields
        .estH = some (fInt 8)
    ∧ field_value (getRTask (reduceEstimates (fInt 8) c6State 0 c6Forest) 0).fields
        .compH = some (fInt 3)
    ∧ field_value (getRTask (reduceEstimates (fInt 8) c6State 0 c6Forest) 0).fields
        .remH = some (fInt 5)
    ∧ field_value (getRTask (reduceEstimates (fInt 8) c6State 0 c6Forest) 1).fields
        .estH = some (fInt 5)
    ∧ field_value (getRTask (reduceEstimates (fInt 8) c6State 0 c6Forest) 1).fields
        .compH = some (fInt 0)
    ∧ field_value (getRTask (reduceEstimates (fInt 8) c6State 0 c6Forest) 1).fields
        .remH = some (fInt 5)
    ∧ field_value (getRTask (reduceEstimates (fInt 8) c6State 0 c6Forest) 2).fields
        .estH = some (fInt 3)
    ∧ field_value (getRTask (reduceEstimates (fInt 8) c6State 0 c6Forest) 2).fields
        .compH = some (fInt 3)
    ∧ field_value (getRTask (reduceEstimates (fInt 8) c6State 0 c6Forest) 2).fields
        .remH = some (fInt 0)
    ∧ field_value (updEstimate (fInt 8) ⟨false, estFields 0⟩
        (some (fInt 20, fInt 0, fInt 0))) .estD = some (mkFracI 5 2)
    ∧ pyRound1 ((fInt 20).div (fInt 8)) = mkFracI 5 2 := by
  decide

/-- C9: renaming issues a store update exactly when the new title differs
from the cached one, and an equal title changes nothing; reading a custom
field that does not exist on the task returns absent; writing a custom field
that does not exist on the task is skipped with no store call and no state
change. -/
theorem conditional_write_through :
    (∀ (t : HTask) (v : Str), (pySetName t v).2 = true ↔ v ≠ t.name)
    ∧ (∀ (t : HTask) (v : Str), v = t.name → pySetName t v = (t, false))
    ∧ (∀ (fs : Fields) (n : FName), fs.lookup n = none → field_value fs n = none)
    ∧ (∀ (fs : Fields) (n : FName) (v : Frac), fs.lookup n = none →
        update_field fs n v = (fs, false)) := by
  refine ⟨?_, ?_, ?_, ?_⟩
  · intro t v
    unfold pySetName
    by_cases h : t.name = v
    · rw [if_pos h]
      simp [h.symm]
    · rw [if_neg h]
      simp [Ne.symm h]
  · intro t v h
    unfold pySetName
    rw [if_pos h.symm]
  · intro fs n h
    unfold field_value
    rw [h]
  · intro fs n v h
    have hv : field_value fs n = none := by
      unfold field_value
      rw [h]
    unfold update_field
    rw [if_neg (by simp [hv]), h]

/-- Witness for C9 at concrete inputs: renaming to the cached title issues
no update; the estimate field is absent on an empty field mapping, so a read
returns absent and a write is skipped. -/
theorem conditional_write_through_witness :
    ((pySetName ⟨"A".toList, false, none⟩ "B".toList).2 = true ↔
      "B".toList ≠ "A".toList)
    ∧ pySetName ⟨"A".toList, false, none⟩ "A".toList =
      (⟨"A".toList, false, none⟩, false)
    ∧ field_value [] FName.estH = none
    ∧ update_field [] FName.estH (fInt 1) = ([], false) :=
  ⟨conditional_write_through.1 ⟨"A".toList, false, none⟩ "B".toList,
    conditional_write_through.2.1 ⟨"A".toList, false, none⟩ "A".toList rfl,
    conditional_write_through.2.2.1 [] FName.estH rfl,
    conditional_write_through.2.2.2 [] FName.estH (fInt 1) rfl⟩

end AsanaScrum
